import Mathlib

/-!
Shallow embedding of the tap-query engine (src/attribute.rs, src/data.rs,
src/filter.rs, src/timeline.rs) and proofs about its behaviour.

External collaborators (the tap tree/value model, the regex / wildmatch /
fuzzy-matcher / grep crates) are modelled as explicit function parameters:
the engine only ever consumes them through the narrow interfaces visible in
the source, so theorems quantify over those parameters.
-/

namespace TapQuery

/-- Node identifiers (`TreeNodeId` in the source) are opaque ordered ids;
modelled as natural numbers. -/
abbrev TreeNodeId := Nat

/-- Result of one `file.read(&mut buff)` call on an opened VFile:
either `n` bytes written into the front of the buffer, or an I/O error. -/
inductive ReadResult where
  | ok (bytes : List Nat)
  | err
deriving Repr, DecidableEq

/-- The lazy byte-content capability (`VFileBuilder` in tap): `open()` either
fails (`none`) or yields a stream, modelled as the trace of results its
successive `read` calls return; `size()` is the declared byte length.
An exhausted trace behaves like EOF (a zero-byte read). -/
structure VFileBuilder where
  openResult : Option (List ReadResult)
  size : Nat

mutual
/-- Typed attribute values (tap `Value`), restricted to the kinds this engine
dispatches on: `Attributes` (nested), `ReflectStruct` (struct fields exposed
as attributes, already materialized as a list), `DateTime`, `VFileBuilder`,
and a catch-all text-renderable scalar. -/
inductive Value where
  | attrs (children : List Attribute)
  | reflectStruct (children : List Attribute)
  | dateTime (t : Int)
  | vfile (b : VFileBuilder)
  | scalar (s : String)

/-- A named, typed value attached to a node (tap `Attribute`). -/
inductive Attribute where
  | mk (name : String) (value : Value)
end

def Attribute.name : Attribute → String
  | .mk n _ => n

def Attribute.value : Attribute → Value
  | .mk _ v => v

/-- A tree node: a name plus an ordered attribute list
(`node.value().attributes()` in the source). -/
structure Node where
  name : String
  attributes : List Attribute

/-- The external tree store, at the interface this engine consumes:
`get_node_from_id` and `children_rec` (the latter returns `none` for an
invalid path). -/
structure Tree where
  get_node_from_id : TreeNodeId → Option Node
  children_rec : Option String → Option (List TreeNodeId)

/-- The four matching methods (`MatchMethod` in attribute.rs). -/
inductive MatchMethod where
  | Fixed
  | Regex
  | Wildcard
  | Fuzzy
deriving Repr, DecidableEq

/-- External matcher crates, abstracted at the interfaces used by
`MatcherMethod::new` / `is_match`: `regexCompile` is `Regex::new` (may fail),
`wildCompile` is `WildMatch::new` followed by `matches`, and `fuzzyMatch`
is `ClangdMatcher::fuzzy_match(value, query).is_some()`. -/
structure MatchExt where
  regexCompile : String → Option (String → Bool)
  wildCompile : String → (String → Bool)
  fuzzyMatch : String → String → Bool

/-- A compiled matcher (`MatcherMethod` in attribute.rs). -/
inductive MatcherMethod where
  | Fixed
  | Regex (f : String → Bool)
  | Wildcard (f : String → Bool)
  | Fuzzy (m : String → String → Bool)

/-- `MatcherMethod::new(method_type, query)`: only the Regex arm can fail
(`Regex::new(query)?`); the other three arms always succeed. -/
def MatcherMethod.new (ext : MatchExt) (method_type : MatchMethod) (query : String) :
    Option MatcherMethod :=
  match method_type with
  | .Fixed => some .Fixed
  | .Regex => (ext.regexCompile query).map MatcherMethod.Regex
  | .Wildcard => some (.Wildcard (ext.wildCompile query))
  | .Fuzzy => some (.Fuzzy ext.fuzzyMatch)

/-- `MatcherMethod::is_match(query, value)`. -/
def MatcherMethod.is_match : MatcherMethod → String → String → Bool
  | .Fixed, query, value => value == query
  | .Regex f, _, value => f value
  | .Wildcard f, _, value => f value
  | .Fuzzy m, query, value => m value query

/-! ## Result-set algebra (filter.rs, `Op`) -/

/-- Rust `Vec::sort()` on node ids: ascending stable sort. -/
def rustSort (l : List TreeNodeId) : List TreeNodeId :=
  l.mergeSort (fun a b => a ≤ b)

/-- Rust `Vec::dedup()`: removes consecutive equal elements. -/
def dedupConsec : List TreeNodeId → List TreeNodeId
  | [] => []
  | [a] => [a]
  | a :: b :: rest =>
    if a = b then dedupConsec (b :: rest) else a :: dedupConsec (b :: rest)

/-- `Op::and_not(left, right)`: keep the elements of `right` absent from
`left`, then `sort(); dedup()`. -/
def Op.and_not (left right : List TreeNodeId) : List TreeNodeId :=
  dedupConsec (rustSort (right.filter (fun id => !(left.contains id))))

/-- `Op::and(left, right)`: keep the elements of `right` present in `left`,
then `sort(); dedup()`. -/
def Op.and (left right : List TreeNodeId) : List TreeNodeId :=
  dedupConsec (rustSort (right.filter (fun id => left.contains id)))

/-- `Op::or(left, right)`: concatenate, then `sort(); dedup()`. -/
def Op.or (left right : List TreeNodeId) : List TreeNodeId :=
  dedupConsec (rustSort (left ++ right))

/-! ### Lemmas about sort + consecutive dedup -/

theorem mem_dedupConsec : ∀ (l : List TreeNodeId) (x : TreeNodeId),
    x ∈ dedupConsec l ↔ x ∈ l
  | [], x => Iff.rfl
  | [a], x => Iff.rfl
  | a :: b :: rest, x => by
    rw [dedupConsec]
    by_cases hab : a = b
    · rw [if_pos hab, mem_dedupConsec (b :: rest) x]
      subst hab
      simp only [List.mem_cons]
      tauto
    · rw [if_neg hab]
      simp only [List.mem_cons, mem_dedupConsec (b :: rest) x]

theorem sorted_rustSort (l : List TreeNodeId) :
    (rustSort l).Pairwise (· ≤ ·) := by
  unfold rustSort
  have h := @List.sorted_mergeSort TreeNodeId (fun a b => decide (a ≤ b))
    (fun a b c hab hbc =>
      decide_eq_true (Nat.le_trans (of_decide_eq_true hab) (of_decide_eq_true hbc)))
    (fun a b => by rcases Nat.le_total a b with h | h <;> simp [h]) l
  exact h.imp (fun hd => of_decide_eq_true hd)

theorem mem_rustSort (l : List TreeNodeId) (x : TreeNodeId) :
    x ∈ rustSort l ↔ x ∈ l := by
  unfold rustSort
  exact List.mem_mergeSort

theorem dedupConsec_pairwise_lt : ∀ (l : List TreeNodeId),
    l.Pairwise (· ≤ ·) → (dedupConsec l).Pairwise (· < ·)
  | [], _ => by simp [dedupConsec]
  | [a], _ => by simp [dedupConsec]
  | a :: b :: rest, h => by
    rw [dedupConsec]
    rcases List.pairwise_cons.1 h with ⟨hale, htail⟩
    by_cases hab : a = b
    · rw [if_pos hab]
      exact dedupConsec_pairwise_lt (b :: rest) htail
    · rw [if_neg hab]
      refine List.pairwise_cons.2 ⟨?_, dedupConsec_pairwise_lt (b :: rest) htail⟩
      intro y hy
      have hy' : y ∈ b :: rest := (mem_dedupConsec _ _).1 hy
      have halt : a < b := lt_of_le_of_ne (hale b (by simp)) hab
      rcases List.mem_cons.1 hy' with rfl | hyr
      · exact halt
      · exact lt_of_lt_of_le halt ((List.pairwise_cons.1 htail).1 y hyr)

/-- The canonicalization used by every `Op` operation yields a strictly
ascending (hence duplicate-free) list with the same members. -/
theorem canon_spec (l : List TreeNodeId) :
    (dedupConsec (rustSort l)).Pairwise (· < ·) ∧
    (∀ x, x ∈ dedupConsec (rustSort l) ↔ x ∈ l) := by
  refine ⟨dedupConsec_pairwise_lt _ (sorted_rustSort l), ?_⟩
  intro x
  rw [mem_dedupConsec, mem_rustSort]

/-! ## Attribute matching (attribute.rs) -/

/-- The dotted-path extension computed inside each traversal loop and in the
final fall-through test of `match_attribute_dotted_name`:
`match dotted_attrib.len() { 0 => name, _ => dotted_attrib + "." + name }`. -/
def childDotted (dotted name : String) : String :=
  if dotted.length = 0 then name else dotted ++ "." ++ name

mutual
/-- `match_attribute_dotted_name(dotted_attrib, attribute, query_value, matcher)`.
For `Attributes` / `ReflectStruct` values the children are tried first (the
`for` loop returns on the first hit); control then falls through to the final
`match dotted_attrib.len()` test on the attribute's own dotted name, which is
also the only test performed at a leaf. -/
def match_attribute_dotted_name : String → Attribute → String → MatcherMethod → Bool
  | dotted, .mk name (.attrs children), q, m =>
    matchChildren (childDotted dotted name) children q m || m.is_match q (childDotted dotted name)
  | dotted, .mk name (.reflectStruct children), q, m =>
    matchChildren (childDotted dotted name) children q m || m.is_match q (childDotted dotted name)
  | dotted, .mk name _, q, m => m.is_match q (childDotted dotted name)

/-- The `for current_attribute in ... { if match_... { return true } }` loop. -/
def matchChildren : String → List Attribute → String → MatcherMethod → Bool
  | _, [], _, _ => false
  | dotted, c :: rest, q, m =>
    match_attribute_dotted_name dotted c q m || matchChildren dotted rest q m
end

/-- `match_attributes_dotted_name(node, query_value, matcher)`: tries each
top-level attribute with an empty dotted path. -/
def match_attributes_dotted_name (node : Node) (q : String) (m : MatcherMethod) : Bool :=
  matchChildren "" node.attributes q m

/-- `QueryType` in attribute.rs. -/
inductive QueryType where
  | AttributeName
  | Name
deriving Repr, DecidableEq

/-- `match_query(tree, nodes, query_type, match_method_type, query_value)`:
compile one matcher, then keep (in input order) the ids whose node matches. -/
def match_query (ext : MatchExt) (tree : Tree) (nodes : List TreeNodeId)
    (query_type : QueryType) (match_method_type : MatchMethod) (query_value : String) :
    Option (List TreeNodeId) :=
  (MatcherMethod.new ext match_method_type query_value).map fun matcher =>
    nodes.filterMap fun node_id =>
      match tree.get_node_from_id node_id with
      | some node =>
        if (match query_type with
            | .Name => matcher.is_match query_value node.name
            | .AttributeName => match_attributes_dotted_name node query_value matcher) then
          some node_id
        else none
      | none => none

mutual
/-- `match_attribute_name_and_value`: same traversal as
`match_attribute_dotted_name`, but the fall-through test requires the dotted
name to match the name pattern AND the text rendering of the attribute's value
(`attribute.value().to_string()`, abstracted as `render`) to match the value
pattern. -/
def match_attribute_name_and_value (render : Value → String) :
    String → Attribute → String → MatcherMethod → String → MatcherMethod → Bool
  | dotted, .mk name (.attrs children), qn, nm, qv, vm =>
    matchChildrenNV render (childDotted dotted name) children qn nm qv vm
      || (nm.is_match qn (childDotted dotted name) && vm.is_match qv (render (.attrs children)))
  | dotted, .mk name (.reflectStruct children), qn, nm, qv, vm =>
    matchChildrenNV render (childDotted dotted name) children qn nm qv vm
      || (nm.is_match qn (childDotted dotted name) && vm.is_match qv (render (.reflectStruct children)))
  | dotted, .mk name v, qn, nm, qv, vm =>
    nm.is_match qn (childDotted dotted name) && vm.is_match qv (render v)

/-- The child loop of `match_attribute_name_and_value`. -/
def matchChildrenNV (render : Value → String) :
    String → List Attribute → String → MatcherMethod → String → MatcherMethod → Bool
  | _, [], _, _, _, _ => false
  | dotted, c :: rest, qn, nm, qv, vm =>
    match_attribute_name_and_value render dotted c qn nm qv vm
      || matchChildrenNV render dotted rest qn nm qv vm
end

/-- `match_attribute_name_value(node, ...)`: tries each top-level attribute
with an empty dotted path. -/
def match_attribute_name_value (render : Value → String) (node : Node)
    (qn : String) (nm : MatcherMethod) (qv : String) (vm : MatcherMethod) : Bool :=
  matchChildrenNV render "" node.attributes qn nm qv vm

/-- `match_attribute_query(tree, nodes, name, name_match_type, value, value_match_type)`:
compile both matchers (either failure aborts the query), then keep the ids
whose node has an attribute matching on name and value. -/
def match_attribute_query (ext : MatchExt) (render : Value → String) (tree : Tree)
    (nodes : List TreeNodeId) (name : String) (name_match_type : MatchMethod)
    (value : String) (value_match_type : MatchMethod) : Option (List TreeNodeId) :=
  (MatcherMethod.new ext name_match_type name).bind fun nm =>
    (MatcherMethod.new ext value_match_type value).map fun vm =>
      nodes.filterMap fun node_id =>
        match tree.get_node_from_id node_id with
        | some node =>
          if match_attribute_name_value render node name nm value vm then some node_id
          else none
        | none => none

/-! ## Data content search (data.rs) -/

def Value.try_as_vfile_builder : Value → Option VFileBuilder
  | .vfile b => some b
  | _ => none

/-- tap's `node.value().get_value(name)`: the value of the first attribute
with the given name, if any. -/
def Node.get_value (node : Node) (name : String) : Option Value :=
  match node.attributes.find? (fun a => a.name == name) with
  | some a => some a.value
  | none => none

/-- One `file.read(&mut buff)` writing `bytes` over the front of the buffer:
the bytes beyond `bytes.length` keep their previous content. -/
def writeBuff (buff bytes : List Nat) : List Nat :=
  bytes ++ buff.drop bytes.length

/-- The read/test loop of `match_data_regex`:
`while readed < file_size { read; readed += n; if n <= 0 return false;
 if regex.is_match(&buff) return true }` — the regex (abstracted as the
predicate `m`) is tested against the whole buffer after every read.
The stream is the trace of read results; an exhausted trace is EOF, which a
further read reports as zero bytes (`n <= 0 → false`), and a read error is
`false`, so for the `[]` and `err` branches the `readed < file_size` loop
guard is irrelevant (both orderings yield `false`); the guard is checked
where it matters, before an `ok` read is consumed. -/
def matchLoop (m : List Nat → Bool) (size : Nat) :
    List ReadResult → List Nat → Nat → Bool
  | [], _, _ => false
  | .err :: _, _, _ => false
  | .ok bytes :: rest, buff, readed =>
    if readed < size then
      if bytes.length = 0 then false
      else
        let buff2 := writeBuff buff bytes
        if m buff2 then true else matchLoop m size rest buff2 (readed + bytes.length)
    else false

/-- `match_data_regex(node, query_compiled)`: resolve the "data" attribute to
a `VFileBuilder`, open it, then scan with a 4096-byte zero-initialized buffer.
Every failure path (missing attribute, wrong kind, open error) is `false`. -/
def match_data_regex (m : List Nat → Bool) (node : Node) : Bool :=
  match node.get_value "data" with
  | none => false
  | some data =>
    match data.try_as_vfile_builder with
    | none => false
    | some builder =>
      match builder.openResult with
      | none => false
      | some file => matchLoop m builder.size file (List.replicate 4096 0) 0

/-- `query_data_regex(tree, nodes, query_value)`: compile the byte regex
(abstracted as `compile`, which may fail), then keep (in input order) the ids
whose node's data matches. -/
def query_data_regex (compile : String → Option (List Nat → Bool)) (tree : Tree)
    (nodes : List TreeNodeId) (query_value : String) : Option (List TreeNodeId) :=
  (compile query_value).map fun qc =>
    nodes.filterMap fun node_id =>
      match tree.get_node_from_id node_id with
      | some node => if match_data_regex qc node then some node_id else none
      | none => none

/-- `match_data_line(node, query_compiled)`: resolve and open the "data"
attribute exactly as `match_data_regex`; the grep line searcher over the
opened stream is external (grep_searcher / grep_regex crates) and is
abstracted as `lineMatches`, true iff it reports at least one matching line. -/
def match_data_line (lineMatches : List ReadResult → Bool) (node : Node) : Bool :=
  match node.get_value "data" with
  | none => false
  | some data =>
    match data.try_as_vfile_builder with
    | none => false
    | some builder =>
      match builder.openResult with
      | none => false
      | some file => lineMatches file

/-- `query_data_line(tree, nodes, query_value)`: compile the line matcher
(abstracted as `lineCompile`, which may fail), then keep the matching ids. -/
def query_data_line (lineCompile : String → Option (List ReadResult → Bool)) (tree : Tree)
    (nodes : List TreeNodeId) (query_value : String) : Option (List TreeNodeId) :=
  (lineCompile query_value).map fun lm =>
    nodes.filterMap fun node_id =>
      match tree.get_node_from_id node_id with
      | some node => if match_data_line lm node then some node_id else none
      | none => none

/-! ## Timeline (timeline.rs) -/

/-- `TimeInfo`: timestamps are modelled as integers with the total order of
`chrono::DateTime<Utc>`. -/
structure TimeInfo where
  time : Int
  attribute_name : String
  id : TreeNodeId
deriving Repr, DecidableEq

mutual
/-- `Timeline::match_time_rec(dotted_attrib, node_id, attribute, times, min, max)`:
recurse into `Attributes` / `ReflectStruct` children with the extended dotted
path; at a `DateTime` leaf push one entry when `min <= t && t <= max`; any
other leaf contributes nothing.  The `&mut Vec` accumulator becomes explicit
state passing. -/
def match_time_rec : String → TreeNodeId → Attribute → List TimeInfo → Int → Int → List TimeInfo
  | dotted, nid, .mk name (.attrs children), times, minT, maxT =>
    match_time_list (childDotted dotted name) nid children times minT maxT
  | dotted, nid, .mk name (.reflectStruct children), times, minT, maxT =>
    match_time_list (childDotted dotted name) nid children times minT maxT
  | dotted, nid, .mk name (.dateTime t), times, minT, maxT =>
    if minT ≤ t ∧ t ≤ maxT then times ++ [⟨t, childDotted dotted name, nid⟩] else times
  | _, _, .mk _ _, times, _, _ => times

/-- The `for current_attribute in ...` loop of `match_time_rec`. -/
def match_time_list : String → TreeNodeId → List Attribute → List TimeInfo → Int → Int → List TimeInfo
  | _, _, [], times, _, _ => times
  | dotted, nid, c :: rest, times, minT, maxT =>
    match_time_list dotted nid rest (match_time_rec dotted nid c times minT maxT) minT maxT
end

/-- `Timeline::match_time(node, node_id, min, max)`: fold over the node's
top-level attributes with an empty dotted path and an empty accumulator. -/
def Timeline.match_time (node : Node) (nid : TreeNodeId) (minT maxT : Int) : List TimeInfo :=
  match_time_list "" nid node.attributes [] minT maxT

/-- `Timeline::nodes(tree, nodes, min_time, max_time)`: per-node collection
(missing ids skipped), flattened in input order, then
`sort_by(|a, b| a.time.partial_cmp(&b.time).unwrap())`. -/
def Timeline.nodes (tree : Tree) (nodes : List TreeNodeId) (minT maxT : Int) : List TimeInfo :=
  let times : List TimeInfo :=
    (nodes.filterMap fun node_id =>
      match tree.get_node_from_id node_id with
      | some node => some (Timeline.match_time node node_id minT maxT)
      | none => none).flatten
  times.mergeSort (fun a b => a.time ≤ b.time)

/-- `Timeline::path(tree, path, min_time, max_time)`: resolve the path first,
failing with "Invalid path" when `children_rec` returns nothing. -/
def Timeline.path (tree : Tree) (path : String) (minT maxT : Int) :
    Except String (List TimeInfo) :=
  match tree.children_rec (some path) with
  | some nodes => Except.ok (Timeline.nodes tree nodes minT maxT)
  | none => Except.error "Invalid path"

/-! ## Query façade (filter.rs, `Filter`) -/

/-- `Filter::nodes(tree, query, nodes)` delegates to the external
grammar-driven parser (`parser::OpNodesParser`, generated by lalrpop and out
of scope here), abstracted as the `parse` parameter. -/
def Filter.nodes (parse : Tree → List TreeNodeId → String → Except String (List TreeNodeId))
    (tree : Tree) (query : String) (nodes : List TreeNodeId) :
    Except String (List TreeNodeId) :=
  parse tree nodes query

/-- `Filter::path(tree, query, path)`: resolve the path first, failing with
"Invalid path" when `children_rec` returns nothing; otherwise delegate to
`Filter::nodes`. -/
def Filter.path (parse : Tree → List TreeNodeId → String → Except String (List TreeNodeId))
    (tree : Tree) (query : String) (path : String) : Except String (List TreeNodeId) :=
  match tree.children_rec (some path) with
  | some nodes => Filter.nodes parse tree query nodes
  | none => Except.error "Invalid path"

/-! ## Concrete fixtures used by counterexamples and witnesses -/

/-- A `MatchExt` whose external matchers always succeed to compile and never
match; used only to instantiate universally quantified statements. -/
def extTriv : MatchExt :=
  ⟨fun _ => some (fun _ => false), fun _ _ => false, fun _ _ => false⟩

def nodeA : Node := ⟨"a", []⟩

def tree1 : Tree :=
  { get_node_from_id := fun id => if id = 1 ∨ id = 2 then some nodeA else none,
    children_rec := fun _ => none }

def nodeOuter : Node := ⟨"n", [.mk "outer" (.attrs [.mk "inner" (.scalar "v")])]⟩

/-! ## Claim theorems -/

/-- C4: `Op::and_not(A, B)` (the subtract operator) returns exactly the
elements of `B` that are not in `A` — result is `B` minus `A` — and
`and_not(A, A)` is empty. -/
theorem c4_subtract_is_right_minus_left :
    ∀ (A B : List TreeNodeId),
      (∀ x, x ∈ Op.and_not A B ↔ x ∈ B ∧ x ∉ A) ∧ Op.and_not A A = [] := by
  have hmem : ∀ (A B : List TreeNodeId) (x : TreeNodeId),
      x ∈ Op.and_not A B ↔ x ∈ B ∧ x ∉ A := by
    intro A B x
    unfold Op.and_not
    rw [(canon_spec (B.filter (fun id => !(A.contains id)))).2 x, List.mem_filter]
    simp [List.elem_iff]
  intro A B
  refine ⟨hmem A B, ?_⟩
  rw [List.eq_nil_iff_forall_not_mem]
  intro x hx
  rcases (hmem A A x).1 hx with ⟨hin, hout⟩
  exact hout hin

/-- C6: the three result-set operations `and` (intersect), `or` (union) and
`and_not` (subtract) return strictly ascending, duplicate-free id lists for
every pair of input vectors. -/
theorem c6_algebra_outputs_canonical :
    ∀ (A B : List TreeNodeId),
      ((Op.and A B).Sorted (· < ·) ∧ (Op.and A B).Nodup)
      ∧ ((Op.or A B).Sorted (· < ·) ∧ (Op.or A B).Nodup)
      ∧ ((Op.and_not A B).Sorted (· < ·) ∧ (Op.and_not A B).Nodup) := by
  have h : ∀ (l : List TreeNodeId),
      (dedupConsec (rustSort l)).Sorted (· < ·) ∧ (dedupConsec (rustSort l)).Nodup := by
    intro l
    refine ⟨(canon_spec l).1, ?_⟩
    exact List.Pairwise.imp (fun hlt => Nat.ne_of_lt hlt) (canon_spec l).1
  intro A B
  exact ⟨h _, h _, h _⟩

/-- C9: `MatcherMethod::new` always succeeds for the Fixed, Wildcard and
Fuzzy methods, and for the Regex method fails exactly when the external
regex compiler rejects the pattern. -/
theorem c9_only_regex_compile_fails :
    ∀ (ext : MatchExt) (q : String),
      (MatcherMethod.new ext MatchMethod.Fixed q).isSome = true
      ∧ (MatcherMethod.new ext MatchMethod.Wildcard q).isSome = true
      ∧ (MatcherMethod.new ext MatchMethod.Fuzzy q).isSome = true
      ∧ (MatcherMethod.new ext MatchMethod.Regex q = none ↔ ext.regexCompile q = none) := by
  intro ext q
  refine ⟨rfl, rfl, rfl, ?_⟩
  unfold MatcherMethod.new
  cases ext.regexCompile q <;> simp

/-- C8: the path-scoped entry points `Filter::path` and `Timeline::path` fail
with the "Invalid path" error when `children_rec` does not resolve the path,
for every parser and every tree content — so no node is evaluated. -/
theorem c8_invalid_path_fails_fast :
    ∀ (parse : Tree → List TreeNodeId → String → Except String (List TreeNodeId))
      (tree : Tree) (q path : String) (minT maxT : Int),
      tree.children_rec (some path) = none →
      Filter.path parse tree q path = Except.error "Invalid path"
      ∧ Timeline.path tree path minT maxT = Except.error "Invalid path" := by
  intro parse tree q path minT maxT h
  constructor
  · unfold Filter.path
    rw [h]
  · unfold Timeline.path
    rw [h]

/-- Witness for C8 at a concrete tree whose `children_rec` resolves nothing. -/
theorem c8_invalid_path_fails_fast_witness :
    Filter.path (fun _ ns _ => Except.ok ns) tree1 "q" "/x" = Except.error "Invalid path"
    ∧ Timeline.path tree1 "/x" 0 1 = Except.error "Invalid path" :=
  c8_invalid_path_fails_fast (fun _ ns _ => Except.ok ns) tree1 "q" "/x" 0 1 rfl

/-! ## C1: shape of the four filtering operations -/

/-- The `filter_map` body shared by all four filtering operations keeps
exactly the input ids whose node satisfies the per-node predicate,
preserving input order and multiplicity. -/
theorem filterMap_match_eq_filter (g : TreeNodeId → Option Node) (p : Node → Bool) :
    ∀ ids : List TreeNodeId,
      (ids.filterMap fun id =>
        match g id with
        | some n => if p n then some id else none
        | none => none)
      = ids.filter fun id =>
          match g id with
          | some n => p n
          | none => false
  | [] => rfl
  | id :: rest => by
    rw [List.filterMap_cons, List.filter_cons]
    cases hg : g id with
    | none => simpa using filterMap_match_eq_filter g p rest
    | some n =>
      cases hp : p n with
      | true => simp [hp, filterMap_match_eq_filter g p rest]
      | false => simp [hp, filterMap_match_eq_filter g p rest]

/-- Per-node predicate of `match_query`. -/
def nodeNameOrAttrMatches (tree : Tree) (query_type : QueryType) (q : String)
    (matcher : MatcherMethod) (id : TreeNodeId) : Bool :=
  match tree.get_node_from_id id with
  | some node =>
    match query_type with
    | .Name => matcher.is_match q node.name
    | .AttributeName => match_attributes_dotted_name node q matcher
  | none => false

/-- Per-node predicate of `match_attribute_query`. -/
def nodeNVMatches (render : Value → String) (tree : Tree) (qn : String)
    (nm : MatcherMethod) (qv : String) (vm : MatcherMethod) (id : TreeNodeId) : Bool :=
  match tree.get_node_from_id id with
  | some node => match_attribute_name_value render node qn nm qv vm
  | none => false

/-- Per-node predicate of `query_data_regex`. -/
def nodeDataRegexMatches (m : List Nat → Bool) (tree : Tree) (id : TreeNodeId) : Bool :=
  match tree.get_node_from_id id with
  | some node => match_data_regex m node
  | none => false

/-- Per-node predicate of `query_data_line`. -/
def nodeDataLineMatches (lm : List ReadResult → Bool) (tree : Tree) (id : TreeNodeId) : Bool :=
  match tree.get_node_from_id id with
  | some node => match_data_line lm node
  | none => false

/-- C1 counterexample: on a tree where node 2 matches, the input id list
`[2, 2]` yields the result `[2, 2]`, which is not deduplicated — the
filtering operations do not canonicalize their output. -/
theorem c1_counterexample_not_canonical :
    match_query extTriv tree1 [2, 2] QueryType.Name MatchMethod.Fixed "a" = some [2, 2]
    ∧ ¬ ([2, 2] : List TreeNodeId).Nodup := by
  constructor
  · decide
  · decide

/-- C1 (amended): every filtering operation returns the input id list
filtered by its per-node predicate — preserving the ordering and the
duplication of the input id list — rather than a canonicalized set. -/
theorem c1_amended_filtering_preserves_input_order :
    ∀ (ext : MatchExt) (render : Value → String) (tree : Tree) (ids : List TreeNodeId)
      (query_type : QueryType) (mt nmt vmt : MatchMethod) (q name value qd ql : String)
      (compile : String → Option (List Nat → Bool))
      (lineCompile : String → Option (List ReadResult → Bool)),
      match_query ext tree ids query_type mt q
        = (MatcherMethod.new ext mt q).map
            (fun matcher => ids.filter (nodeNameOrAttrMatches tree query_type q matcher))
      ∧ match_attribute_query ext render tree ids name nmt value vmt
        = (MatcherMethod.new ext nmt name).bind (fun nm =>
            (MatcherMethod.new ext vmt value).map (fun vm =>
              ids.filter (nodeNVMatches render tree name nm value vm)))
      ∧ query_data_regex compile tree ids qd
        = (compile qd).map (fun m => ids.filter (nodeDataRegexMatches m tree))
      ∧ query_data_line lineCompile tree ids ql
        = (lineCompile ql).map (fun lm => ids.filter (nodeDataLineMatches lm tree)) := by
  intro ext render tree ids query_type mt nmt vmt q name value qd ql compile lineCompile
  refine ⟨?_, ?_, ?_, ?_⟩
  · unfold match_query
    cases MatcherMethod.new ext mt q with
    | none => rfl
    | some matcher =>
      simp only [Option.map_some']
      congr 1
      exact filterMap_match_eq_filter tree.get_node_from_id
        (fun node => match query_type with
          | .Name => matcher.is_match q node.name
          | .AttributeName => match_attributes_dotted_name node q matcher) ids
  · unfold match_attribute_query
    cases MatcherMethod.new ext nmt name with
    | none => rfl
    | some nm =>
      cases MatcherMethod.new ext vmt value with
      | none => rfl
      | some vm =>
        simp only [Option.some_bind, Option.map_some']
        congr 1
        exact filterMap_match_eq_filter tree.get_node_from_id
          (fun node => match_attribute_name_value render node name nm value vm) ids
  · unfold query_data_regex
    cases compile qd with
    | none => rfl
    | some m =>
      simp only [Option.map_some']
      congr 1
      exact filterMap_match_eq_filter tree.get_node_from_id
        (fun node => match_data_regex m node) ids
  · unfold query_data_line
    cases lineCompile ql with
    | none => rfl
    | some lm =>
      simp only [Option.map_some']
      congr 1
      exact filterMap_match_eq_filter tree.get_node_from_id
        (fun node => match_data_line lm node) ids

/-! ## C2: where the dotted-name match test is evaluated -/

mutual
/-- All dotted names the source traversal tests for one attribute: every
descendant is visited, and the attribute's OWN dotted name is tested last
(the fall-through after the recursion loops). -/
def dottedNames : String → Attribute → List String
  | dotted, .mk name (.attrs children) =>
    dottedNamesList (childDotted dotted name) children ++ [childDotted dotted name]
  | dotted, .mk name (.reflectStruct children) =>
    dottedNamesList (childDotted dotted name) children ++ [childDotted dotted name]
  | dotted, .mk name _ => [childDotted dotted name]

def dottedNamesList : String → List Attribute → List String
  | _, [] => []
  | dotted, c :: rest => dottedNames dotted c ++ dottedNamesList dotted rest
end

mutual
theorem match_eq_any_dottedNames :
    ∀ (dotted : String) (a : Attribute) (q : String) (m : MatcherMethod),
      match_attribute_dotted_name dotted a q m
        = (dottedNames dotted a).any (fun s => m.is_match q s)
  | dotted, .mk name (.attrs children), q, m => by
    simp only [match_attribute_dotted_name, dottedNames, List.any_append, List.any_cons,
      List.any_nil, Bool.or_false, matchChildren_eq_any (childDotted dotted name) children q m]
  | dotted, .mk name (.reflectStruct children), q, m => by
    simp only [match_attribute_dotted_name, dottedNames, List.any_append, List.any_cons,
      List.any_nil, Bool.or_false, matchChildren_eq_any (childDotted dotted name) children q m]
  | dotted, .mk name (.dateTime t), q, m => by
    simp [match_attribute_dotted_name, dottedNames]
  | dotted, .mk name (.vfile b), q, m => by
    simp [match_attribute_dotted_name, dottedNames]
  | dotted, .mk name (.scalar s), q, m => by
    simp [match_attribute_dotted_name, dottedNames]

theorem matchChildren_eq_any :
    ∀ (dotted : String) (cs : List Attribute) (q : String) (m : MatcherMethod),
      matchChildren dotted cs q m = (dottedNamesList dotted cs).any (fun s => m.is_match q s)
  | _, [], _, _ => by simp [matchChildren, dottedNamesList]
  | dotted, c :: rest, q, m => by
    simp only [matchChildren, dottedNamesList, List.any_append,
      match_eq_any_dottedNames dotted c q m, matchChildren_eq_any dotted rest q m]
end

mutual
/-- As the spec §4.2 describes the traversal: recurse into `Attributes` /
`ReflectStruct` children, and evaluate the match test ONLY at leaf attributes
(any other kind), against the dotted path joined with the leaf name (bare
leaf name when the path is empty).  Stated from the spec's words, for
comparison with the source's `match_attribute_dotted_name`. -/
def specLeafOnlyMatch : String → Attribute → String → MatcherMethod → Bool
  | dotted, .mk name (.attrs children), q, m =>
    specLeafOnlyList (childDotted dotted name) children q m
  | dotted, .mk name (.reflectStruct children), q, m =>
    specLeafOnlyList (childDotted dotted name) children q m
  | dotted, .mk name _, q, m => m.is_match q (childDotted dotted name)

def specLeafOnlyList : String → List Attribute → String → MatcherMethod → Bool
  | _, [], _, _ => false
  | dotted, c :: rest, q, m =>
    specLeafOnlyMatch dotted c q m || specLeafOnlyList dotted rest q m
end

/-- Leaf-only matching over a whole node, as the spec describes it. -/
def specLeafOnlyNodeMatch (node : Node) (q : String) (m : MatcherMethod) : Bool :=
  specLeafOnlyList "" node.attributes q m

/-- C2 counterexample: on a node with nested attribute `outer` containing
leaf `inner`, the Fixed query `"outer"` matches in the source — the
container's own dotted name is tested after its children — while the spec's
leaf-only semantics rejects it (its only leaf test is `"outer.inner"`). -/
theorem c2_counterexample_container_is_tested :
    match_attributes_dotted_name nodeOuter "outer" MatcherMethod.Fixed = true
    ∧ specLeafOnlyNodeMatch nodeOuter "outer" MatcherMethod.Fixed = false := by
  constructor
  · decide
  · decide

/-- C2 (amended): the traversal evaluates the match test at EVERY attribute
— each leaf against its dotted path joined with its name, and additionally
each `Attributes`/`ReflectStruct` container against its own dotted name after
its children fail — so a node matches iff any visited dotted name matches.
The claimed consequence still holds: `outer.inner` is matched under Fixed by
query `"outer.inner"` and not by `"inner"` alone. -/
theorem c2_amended_dotted_name_tests :
    (∀ (node : Node) (q : String) (m : MatcherMethod),
      match_attributes_dotted_name node q m
        = (dottedNamesList "" node.attributes).any (fun s => m.is_match q s))
    ∧ match_attributes_dotted_name nodeOuter "outer.inner" MatcherMethod.Fixed = true
    ∧ match_attributes_dotted_name nodeOuter "inner" MatcherMethod.Fixed = false := by
  refine ⟨?_, by decide, by decide⟩
  intro node q m
  exact matchChildren_eq_any "" node.attributes q m

/-! ## C3 / C7 / C10: the byte-regex scan loop -/

/-- `pat` occurs at the head of the byte list. -/
def isSeqAt : List Nat → List Nat → Bool
  | [], _ => true
  | _ :: _, [] => false
  | p :: ps, x :: xs => (p == x) && isSeqAt ps xs

/-- `pat` occurs contiguously somewhere in the byte list: the semantics of
the compiled byte regex for a literal byte pattern. -/
def containsSeq (pat : List Nat) : List Nat → Bool
  | [] => pat.isEmpty
  | x :: xs => isSeqAt pat (x :: xs) || containsSeq pat xs

theorem isSeqAt_self_append : ∀ (pat ys : List Nat), isSeqAt pat (pat ++ ys) = true
  | [], _ => rfl
  | p :: ps, ys => by simp [isSeqAt, isSeqAt_self_append ps ys]

theorem containsSeq_cons (pat : List Nat) (x : Nat) (xs : List Nat) :
    containsSeq pat (x :: xs) = (isSeqAt pat (x :: xs) || containsSeq pat xs) := rfl

theorem containsSeq_self_append (pat ys : List Nat) :
    containsSeq pat (pat ++ ys) = true := by
  cases hp : pat ++ ys with
  | nil =>
    have hpat : pat = [] := (List.append_eq_nil.1 hp).1
    rw [hpat]
    rfl
  | cons x xs =>
    simp only [containsSeq]
    rw [← hp, isSeqAt_self_append]
    simp

theorem containsSeq_replicate_zero (p : Nat) (ps : List Nat) (hp : p ≠ 0) :
    ∀ (n : Nat) (tail : List Nat),
      containsSeq (p :: ps) (List.replicate n 0 ++ tail) = containsSeq (p :: ps) tail
  | 0, tail => by simp
  | n + 1, tail => by
    rw [List.replicate_succ, List.cons_append]
    simp only [containsSeq, isSeqAt]
    have hbeq : (p == 0) = false := by simpa using hp
    rw [hbeq]
    simp [containsSeq_replicate_zero p ps hp n tail]

theorem drop_replicate (a : Nat) : ∀ (k n : Nat),
    (List.replicate n a).drop k = List.replicate (n - k) a
  | 0, n => by simp
  | k + 1, 0 => by simp
  | k + 1, n + 1 => by
    rw [List.replicate_succ, List.drop_succ_cons, drop_replicate a k n, Nat.succ_sub_succ]

/-- A read of at least the buffer's length replaces the buffer entirely. -/
theorem writeBuff_of_length_le {buff bytes : List Nat} (h : buff.length ≤ bytes.length) :
    writeBuff buff bytes = bytes := by
  unfold writeBuff
  rw [List.drop_eq_nil_of_le h, List.append_nil]

theorem matchLoop_nil (m : List Nat → Bool) (size : Nat) (buff : List Nat) (readed : Nat) :
    matchLoop m size [] buff readed = false := rfl

theorem matchLoop_err (m : List Nat → Bool) (size : Nat) (rest : List ReadResult)
    (buff : List Nat) (readed : Nat) :
    matchLoop m size (ReadResult.err :: rest) buff readed = false := rfl

theorem matchLoop_ge (m : List Nat → Bool) (size : Nat) (reads : List ReadResult)
    (buff : List Nat) (readed : Nat) (h : ¬ readed < size) :
    matchLoop m size reads buff readed = false := by
  cases reads with
  | nil => rfl
  | cons r rest =>
    cases r with
    | err => rfl
    | ok bytes =>
      simp only [matchLoop]
      rw [if_neg h]

theorem matchLoop_ok (m : List Nat → Bool) (size : Nat) (bytes : List Nat)
    (rest : List ReadResult) (buff : List Nat) (readed : Nat) (h : readed < size) :
    matchLoop m size (ReadResult.ok bytes :: rest) buff readed
      = if bytes.length = 0 then false
        else if m (writeBuff buff bytes) then true
        else matchLoop m size rest (writeBuff buff bytes) (readed + bytes.length) := by
  simp only [matchLoop]
  rw [if_pos h]

/-- A node whose "data" attribute is a VFile made of the given chunks, whose
declared size is the total chunk length. -/
def fileNode (chunks : List (List Nat)) : Node :=
  ⟨"f", [.mk "data" (.vfile ⟨some (chunks.map ReadResult.ok), 4096 * chunks.length⟩)]⟩

/-- When every read returns a full 4096-byte chunk, the scan tests the regex
against exactly the successive chunks, reporting the first hit. -/
theorem matchLoop_full_chunks (m : List Nat → Bool) :
    ∀ (chunks : List (List Nat)) (buff : List Nat) (readed : Nat),
      (∀ c ∈ chunks, c.length = 4096) → buff.length = 4096 →
      matchLoop m (readed + 4096 * chunks.length) (chunks.map ReadResult.ok) buff readed
        = chunks.any m
  | [], buff, readed, _, _ => by
    simpa using matchLoop_nil m (readed + 4096 * ([] : List (List Nat)).length) buff readed
  | c :: rest, buff, readed, hc, hb => by
    have hclen : c.length = 4096 := hc c (List.mem_cons_self c rest)
    have hwb : writeBuff buff c = c := writeBuff_of_length_le (by rw [hclen, hb])
    rw [List.map_cons,
      matchLoop_ok m (readed + 4096 * (c :: rest).length) c (rest.map ReadResult.ok) buff readed
        (by simp only [List.length_cons]; omega),
      hwb, if_neg (by rw [hclen]; omega)]
    have hsz : readed + 4096 * (c :: rest).length = (readed + c.length) + 4096 * rest.length := by
      simp only [List.length_cons, hclen]
      ring
    rw [hsz, matchLoop_full_chunks m rest c (readed + c.length)
      (fun d hd => hc d (List.mem_cons_of_mem c hd)) hclen]
    cases hm : m c <;> simp [hm]

/-- C3: with the 4096-byte chunked scan, the compiled regex (any byte
predicate `m`) is tested against each full chunk independently, and a node
matches iff some single chunk matches — so an occurrence confined to a
chunk-boundary straddle is reported as a non-match. -/
theorem c3_chunkwise_regex_misses_straddling (m : List Nat → Bool)
    (chunks : List (List Nat)) (h : ∀ c ∈ chunks, c.length = 4096) :
    match_data_regex m (fileNode chunks) = chunks.any m := by
  show matchLoop m (4096 * chunks.length) (chunks.map ReadResult.ok)
    (List.replicate 4096 0) 0 = chunks.any m
  have hfull := matchLoop_full_chunks m chunks (List.replicate 4096 0) 0 h
    (by rw [List.length_replicate])
  rw [Nat.zero_add] at hfull
  exact hfull

def chunkA : List Nat := List.replicate 4094 0 ++ [1, 2]

def chunkB : List Nat := [3, 4] ++ List.replicate 4094 0

/-- Witness for C3: the pattern `[1,2,3,4]` occurs in the file
`chunkA ++ chunkB` only straddling the 4096-byte boundary, and the scan
reports a non-match. -/
theorem c3_chunkwise_regex_misses_straddling_witness :
    containsSeq [1, 2, 3, 4] (chunkA ++ chunkB) = true
    ∧ match_data_regex (containsSeq [1, 2, 3, 4]) (fileNode [chunkA, chunkB]) = false := by
  have hlA : chunkA.length = 4096 := by
    unfold chunkA
    rw [List.length_append, List.length_replicate]
    decide
  have hlB : chunkB.length = 4096 := by
    unfold chunkB
    rw [List.length_append, List.length_replicate]
    decide
  have hlen : ∀ c ∈ [chunkA, chunkB], c.length = 4096 := by
    intro c hc
    rcases List.mem_cons.1 hc with rfl | hc
    · exact hlA
    · rcases List.mem_cons.1 hc with rfl | hc
      · exact hlB
      · simp at hc
  constructor
  · have he : chunkA ++ chunkB
        = List.replicate 4094 0 ++ ([1, 2, 3, 4] ++ List.replicate 4094 0) := by
      unfold chunkA chunkB
      simp only [List.append_assoc, List.cons_append, List.nil_append]
    rw [he, containsSeq_replicate_zero 1 [2, 3, 4] (by decide) 4094 _]
    exact containsSeq_self_append [1, 2, 3, 4] (List.replicate 4094 0)
  · rw [c3_chunkwise_regex_misses_straddling (containsSeq [1, 2, 3, 4]) [chunkA, chunkB] hlen]
    have ha : containsSeq [1, 2, 3, 4] chunkA = false := by
      unfold chunkA
      rw [containsSeq_replicate_zero 1 [2, 3, 4] (by decide) 4094 [1, 2]]
      decide
    have hrep : containsSeq [1, 2, 3, 4] (List.replicate 4094 0) = false := by
      have h0 := containsSeq_replicate_zero 1 [2, 3, 4] (by decide) 4094 []
      rw [List.append_nil] at h0
      rw [h0]
      rfl
    have hb : containsSeq [1, 2, 3, 4] chunkB = false := by
      show containsSeq [1, 2, 3, 4] (3 :: 4 :: List.replicate 4094 0) = false
      rw [containsSeq_cons, containsSeq_cons, hrep]
      decide
    simp [ha, hb]

/-- The successive whole-buffer states tested while consuming a list of
successful reads. -/
def buffStates (buff : List Nat) : List (List Nat) → List (List Nat)
  | [] => []
  | bs :: rest => writeBuff buff bs :: buffStates (writeBuff buff bs) rest

/-- Once a read error or a zero-byte read is reached (no earlier tested
buffer having matched), the scan returns a non-match. -/
theorem matchLoop_bad_read (m : List Nat → Bool) (size : Nat) :
    ∀ (pre : List (List Nat)) (bad : ReadResult) (rest : List ReadResult)
      (buff : List Nat) (readed : Nat),
      (bad = ReadResult.err ∨ bad = ReadResult.ok []) →
      (∀ b ∈ buffStates buff pre, m b = false) →
      matchLoop m size (pre.map ReadResult.ok ++ bad :: rest) buff readed = false
  | [], bad, rest, buff, readed, hbad, _ => by
    rcases hbad with rfl | rfl
    · rw [List.map_nil, List.nil_append]
      exact matchLoop_err m size rest buff readed
    · by_cases h : readed < size
      · rw [List.map_nil, List.nil_append, matchLoop_ok m size [] rest buff readed h]
        simp
      · exact matchLoop_ge m size _ buff readed h
  | bs :: pre, bad, rest, buff, readed, hbad, hnm => by
    by_cases h : readed < size
    · rw [List.map_cons, List.cons_append,
        matchLoop_ok m size bs (pre.map ReadResult.ok ++ bad :: rest) buff readed h]
      by_cases hz : bs.length = 0
      · simp [hz]
      · rw [if_neg hz]
        have hm : m (writeBuff buff bs) = false := by
          apply hnm
          rw [buffStates]
          exact List.mem_cons_self _ _
        rw [hm]
        simp only [Bool.false_eq_true, if_false]
        exact matchLoop_bad_read m size pre bad rest (writeBuff buff bs) (readed + bs.length)
          hbad (fun b hb => hnm b (by rw [buffStates]; exact List.mem_cons_of_mem _ hb))
    · exact matchLoop_ge m size _ buff readed h

/-- C7: per-node soft failures in the byte-regex search. An open error makes
that node a non-match for both search modes; a read error or a zero-byte
read reached before the declared size makes the node a non-match; and the
results for all other ids of the same query are unaffected by one node's
content. -/
theorem c7_per_node_soft_failures :
    (∀ (m : List Nat → Bool) (node : Node) (sz : Nat),
      node.get_value "data" = some (Value.vfile ⟨none, sz⟩) →
      match_data_regex m node = false)
    ∧ (∀ (lm : List ReadResult → Bool) (node : Node) (sz : Nat),
      node.get_value "data" = some (Value.vfile ⟨none, sz⟩) →
      match_data_line lm node = false)
    ∧ (∀ (m : List Nat → Bool) (size : Nat) (pre : List (List Nat)) (bad : ReadResult)
        (rest : List ReadResult) (buff : List Nat) (readed : Nat),
      (bad = ReadResult.err ∨ bad = ReadResult.ok []) →
      (∀ b ∈ buffStates buff pre, m b = false) →
      matchLoop m size (pre.map ReadResult.ok ++ bad :: rest) buff readed = false)
    ∧ (∀ (compile : String → Option (List Nat → Bool)) (t1 t2 : Tree)
        (ids : List TreeNodeId) (id0 : TreeNodeId) (q : String),
      (∀ i, i ≠ id0 → t1.get_node_from_id i = t2.get_node_from_id i) →
      (query_data_regex compile t1 ids q).map (List.filter (fun i => !(i == id0)))
        = (query_data_regex compile t2 ids q).map (List.filter (fun i => !(i == id0)))) := by
  refine ⟨?_, ?_, ?_, ?_⟩
  · intro m node sz h
    unfold match_data_regex
    rw [h]
    rfl
  · intro lm node sz h
    unfold match_data_line
    rw [h]
    rfl
  · intro m size pre bad rest buff readed hbad hnm
    exact matchLoop_bad_read m size pre bad rest buff readed hbad hnm
  · intro compile t1 t2 ids id0 q hagree
    unfold query_data_regex
    cases compile q with
    | none => rfl
    | some m =>
      simp only [Option.map_some']
      congr 1
      rw [filterMap_match_eq_filter t1.get_node_from_id (fun node => match_data_regex m node) ids,
        filterMap_match_eq_filter t2.get_node_from_id (fun node => match_data_regex m node) ids,
        List.filter_filter, List.filter_filter]
      apply List.filter_congr
      intro i _
      by_cases hi : i = id0
      · subst hi
        simp
      · rw [hagree i hi]

def staleNode : Node :=
  ⟨"f", [.mk "data" (.vfile ⟨some [.ok [1, 2, 3, 4], .ok [9]], 5⟩)]⟩

/-- C10: the regex is tested against the whole 4096-byte buffer, not only
the bytes of the last read, so after the short second read `[9]` the buffer
holds `9, 2, 3, 4, ...` and the node is reported as a match for the pattern
`[9, 2]` even though that byte sequence never occurs contiguously in the
file content `[1, 2, 3, 4, 9]`. -/
theorem c10_stale_buffer_false_positive :
    match_data_regex (containsSeq [9, 2]) staleNode = true
    ∧ containsSeq [9, 2] [1, 2, 3, 4, 9] = false := by
  constructor
  · show matchLoop (containsSeq [9, 2]) 5 [.ok [1, 2, 3, 4], .ok [9]]
      (List.replicate 4096 0) 0 = true
    rw [matchLoop_ok (containsSeq [9, 2]) 5 [1, 2, 3, 4] [.ok [9]]
      (List.replicate 4096 0) 0 (by omega)]
    rw [if_neg (by simp)]
    have hw1 : writeBuff (List.replicate 4096 0) [1, 2, 3, 4]
        = 1 :: 2 :: 3 :: 4 :: List.replicate 4092 0 := rfl
    rw [hw1]
    have hrep : containsSeq [9, 2] (List.replicate 4092 0) = false := by
      have h0 := containsSeq_replicate_zero 9 [2] (by decide) 4092 []
      rw [List.append_nil] at h0
      rw [h0]
      rfl
    have hm1 : containsSeq [9, 2] (1 :: 2 :: 3 :: 4 :: List.replicate 4092 0) = false := by
      rw [containsSeq_cons, containsSeq_cons, containsSeq_cons, containsSeq_cons, hrep]
      decide
    rw [hm1]
    simp only [Bool.false_eq_true, if_false]
    have h4 : 0 + ([1, 2, 3, 4] : List Nat).length = 4 := rfl
    rw [h4, matchLoop_ok (containsSeq [9, 2]) 5 [9] []
      (1 :: 2 :: 3 :: 4 :: List.replicate 4092 0) 4 (by omega)]
    rw [if_neg (by simp)]
    have hw2 : writeBuff (1 :: 2 :: 3 :: 4 :: List.replicate 4092 0) [9]
        = 9 :: 2 :: 3 :: 4 :: List.replicate 4092 0 := rfl
    rw [hw2]
    have hm2 : containsSeq [9, 2] (9 :: 2 :: 3 :: 4 :: List.replicate 4092 0) = true := by
      rw [containsSeq_cons]
      rw [show isSeqAt [9, 2] (9 :: 2 :: 3 :: 4 :: List.replicate 4092 0) = true from rfl]
      rfl
    rw [hm2]
    rw [if_pos rfl]
  · decide

/-- Witness for C7: each soft-failure case at a concrete input. -/
theorem c7_per_node_soft_failures_witness :
    match_data_regex (fun _ => true) ⟨"f", [.mk "data" (.vfile ⟨none, 5⟩)]⟩ = false
    ∧ match_data_line (fun _ => true) ⟨"f", [.mk "data" (.vfile ⟨none, 5⟩)]⟩ = false
    ∧ matchLoop (fun _ => false) 5 ([[5]].map ReadResult.ok ++ ReadResult.err :: []) [] 0 = false
    ∧ (query_data_regex (fun _ => some (fun _ => true)) tree1 [1, 2] "q").map
        (List.filter (fun i => !(i == 1)))
      = (query_data_regex (fun _ => some (fun _ => true)) tree1 [1, 2] "q").map
        (List.filter (fun i => !(i == 1))) := by
  refine ⟨?_, ?_, ?_, ?_⟩
  · exact c7_per_node_soft_failures.1 (fun _ => true) _ 5 rfl
  · exact c7_per_node_soft_failures.2.1 (fun _ => true) _ 5 rfl
  · exact c7_per_node_soft_failures.2.2.1 (fun _ => false) 5 [[5]] ReadResult.err [] [] 0
      (Or.inl rfl) (by intro b _; rfl)
  · exact c7_per_node_soft_failures.2.2.2 (fun _ => some (fun _ => true)) tree1 tree1 [1, 2] 1 "q"
      (fun _ _ => rfl)

/-! ## C5: the timeline extractor -/

mutual
/-- Number of `DateTime` leaves with an in-range value reachable from one
attribute by the recursive descent. -/
def inRangeCount (minT maxT : Int) : Attribute → Nat
  | .mk _ (.attrs children) => inRangeCountList minT maxT children
  | .mk _ (.reflectStruct children) => inRangeCountList minT maxT children
  | .mk _ (.dateTime t) => if minT ≤ t ∧ t ≤ maxT then 1 else 0
  | .mk _ _ => 0

def inRangeCountList (minT maxT : Int) : List Attribute → Nat
  | [] => 0
  | c :: rest => inRangeCount minT maxT c + inRangeCountList minT maxT rest
end

mutual
theorem match_time_rec_length :
    ∀ (dotted : String) (nid : TreeNodeId) (a : Attribute) (times : List TimeInfo)
      (minT maxT : Int),
      (match_time_rec dotted nid a times minT maxT).length
        = times.length + inRangeCount minT maxT a
  | dotted, nid, .mk name (.attrs children), times, minT, maxT => by
    simp only [match_time_rec, inRangeCount]
    exact match_time_list_length (childDotted dotted name) nid children times minT maxT
  | dotted, nid, .mk name (.reflectStruct children), times, minT, maxT => by
    simp only [match_time_rec, inRangeCount]
    exact match_time_list_length (childDotted dotted name) nid children times minT maxT
  | dotted, nid, .mk name (.dateTime t), times, minT, maxT => by
    simp only [match_time_rec, inRangeCount]
    by_cases h : minT ≤ t ∧ t ≤ maxT
    · rw [if_pos h, if_pos h, List.length_append]
      rfl
    · rw [if_neg h, if_neg h, Nat.add_zero]
  | dotted, nid, .mk name (.vfile b), times, minT, maxT => by
    simp [match_time_rec, inRangeCount]
  | dotted, nid, .mk name (.scalar s), times, minT, maxT => by
    simp [match_time_rec, inRangeCount]

theorem match_time_list_length :
    ∀ (dotted : String) (nid : TreeNodeId) (cs : List Attribute) (times : List TimeInfo)
      (minT maxT : Int),
      (match_time_list dotted nid cs times minT maxT).length
        = times.length + inRangeCountList minT maxT cs
  | _, _, [], times, minT, maxT => by simp [match_time_list, inRangeCountList]
  | dotted, nid, c :: rest, times, minT, maxT => by
    simp only [match_time_list, inRangeCountList]
    rw [match_time_list_length dotted nid rest _ minT maxT,
      match_time_rec_length dotted nid c times minT maxT]
    omega
end

mutual
theorem mem_match_time_rec :
    ∀ (dotted : String) (nid : TreeNodeId) (a : Attribute) (times : List TimeInfo)
      (minT maxT : Int) (ti : TimeInfo),
      ti ∈ match_time_rec dotted nid a times minT maxT →
      ti ∈ times ∨ (minT ≤ ti.time ∧ ti.time ≤ maxT)
  | dotted, nid, .mk name (.attrs children), times, minT, maxT, ti => fun h =>
    mem_match_time_list (childDotted dotted name) nid children times minT maxT ti h
  | dotted, nid, .mk name (.reflectStruct children), times, minT, maxT, ti => fun h =>
    mem_match_time_list (childDotted dotted name) nid children times minT maxT ti h
  | dotted, nid, .mk name (.dateTime t), times, minT, maxT, ti => by
    simp only [match_time_rec]
    by_cases h : minT ≤ t ∧ t ≤ maxT
    · rw [if_pos h]
      intro hm
      rcases List.mem_append.1 hm with hm | hm
      · exact Or.inl hm
      · right
        have hti : ti = ⟨t, childDotted dotted name, nid⟩ := by simpa using hm
        rw [hti]
        exact h
    · rw [if_neg h]
      exact Or.inl
  | dotted, nid, .mk name (.vfile b), times, minT, maxT, ti => fun h => Or.inl h
  | dotted, nid, .mk name (.scalar s), times, minT, maxT, ti => fun h => Or.inl h

theorem mem_match_time_list :
    ∀ (dotted : String) (nid : TreeNodeId) (cs : List Attribute) (times : List TimeInfo)
      (minT maxT : Int) (ti : TimeInfo),
      ti ∈ match_time_list dotted nid cs times minT maxT →
      ti ∈ times ∨ (minT ≤ ti.time ∧ ti.time ≤ maxT)
  | _, _, [], times, minT, maxT, ti => fun h => Or.inl h
  | dotted, nid, c :: rest, times, minT, maxT, ti => fun h => by
    rcases mem_match_time_list dotted nid rest _ minT maxT ti h with h1 | h1
    · exact mem_match_time_rec dotted nid c times minT maxT ti h1
    · exact Or.inr h1
end

theorem match_time_length (node : Node) (nid : TreeNodeId) (minT maxT : Int) :
    (Timeline.match_time node nid minT maxT).length
      = inRangeCountList minT maxT node.attributes := by
  unfold Timeline.match_time
  rw [match_time_list_length, List.length_nil, Nat.zero_add]

theorem mem_match_time (node : Node) (nid : TreeNodeId) (minT maxT : Int) (ti : TimeInfo) :
    ti ∈ Timeline.match_time node nid minT maxT → minT ≤ ti.time ∧ ti.time ≤ maxT := by
  intro h
  rcases mem_match_time_list "" nid node.attributes [] minT maxT ti h with h1 | h1
  · simp at h1
  · exact h1

/-- The summed lengths of the per-node collections equal the total number of
in-range timestamp leaves over the id list (missing ids contribute zero). -/
theorem timeline_flatten_length (tree : Tree) (minT maxT : Int) :
    ∀ ids : List TreeNodeId,
      ((ids.filterMap fun node_id =>
          match tree.get_node_from_id node_id with
          | some node => some (Timeline.match_time node node_id minT maxT)
          | none => none).map List.length).sum
        = (ids.map fun i =>
            match tree.get_node_from_id i with
            | some node => inRangeCountList minT maxT node.attributes
            | none => 0).sum
  | [] => rfl
  | i :: rest => by
    rw [List.filterMap_cons, List.map_cons]
    cases hg : tree.get_node_from_id i with
    | none =>
      simp only [List.sum_cons, Nat.zero_add]
      exact timeline_flatten_length tree minT maxT rest
    | some node =>
      simp only [List.map_cons, List.sum_cons]
      rw [match_time_length node i minT maxT, timeline_flatten_length tree minT maxT rest]

def node3 : Node :=
  ⟨"n", [.mk "t1" (.dateTime 1),
         .mk "sub" (.attrs [.mk "t2" (.dateTime 2)]),
         .mk "t3" (.dateTime 3)]⟩

def tree3 : Tree := ⟨fun id => if id = 7 then some node3 else none, fun _ => none⟩

/-- C5: every timeline entry's time lies in the inclusive `[min, max]`
range; the output is sorted ascending by time; and the number of entries is
exactly the number of in-range `DateTime` leaves reached by the recursive
descent over the given ids — in particular a node with three in-range
timestamp attributes yields exactly three entries. -/
theorem c5_timeline_in_range_sorted_counted :
    (∀ (tree : Tree) (ids : List TreeNodeId) (minT maxT : Int),
      (∀ ti ∈ Timeline.nodes tree ids minT maxT, minT ≤ ti.time ∧ ti.time ≤ maxT)
      ∧ (Timeline.nodes tree ids minT maxT).Sorted (fun a b => a.time ≤ b.time)
      ∧ (Timeline.nodes tree ids minT maxT).length
          = (ids.map fun i =>
              match tree.get_node_from_id i with
              | some node => inRangeCountList minT maxT node.attributes
              | none => 0).sum)
    ∧ (Timeline.nodes tree3 [7] 0 10).length = 3 := by
  have hmain : ∀ (tree : Tree) (ids : List TreeNodeId) (minT maxT : Int),
      (∀ ti ∈ Timeline.nodes tree ids minT maxT, minT ≤ ti.time ∧ ti.time ≤ maxT)
      ∧ (Timeline.nodes tree ids minT maxT).Sorted (fun a b => a.time ≤ b.time)
      ∧ (Timeline.nodes tree ids minT maxT).length
          = (ids.map fun i =>
              match tree.get_node_from_id i with
              | some node => inRangeCountList minT maxT node.attributes
              | none => 0).sum := by
    intro tree ids minT maxT
    refine ⟨?_, ?_, ?_⟩
    · intro ti hti
      unfold Timeline.nodes at hti
      rw [List.mem_mergeSort, List.mem_flatten] at hti
      rcases hti with ⟨l, hl, hmem⟩
      rcases List.mem_filterMap.1 hl with ⟨i, _, hf⟩
      cases hg : tree.get_node_from_id i with
      | none => rw [hg] at hf; cases hf
      | some node =>
        rw [hg] at hf
        have hl' : l = Timeline.match_time node i minT maxT := by
          cases hf
          rfl
        rw [hl'] at hmem
        exact mem_match_time node i minT maxT ti hmem
    · unfold Timeline.nodes
      have h := @List.sorted_mergeSort TimeInfo (fun a b => decide (a.time ≤ b.time))
        (fun a b c hab hbc =>
          decide_eq_true (Int.le_trans (of_decide_eq_true hab) (of_decide_eq_true hbc)))
        (fun a b => by rcases Int.le_total a.time b.time with h | h <;> simp [h])
        ((ids.filterMap fun node_id =>
          match tree.get_node_from_id node_id with
          | some node => some (Timeline.match_time node node_id minT maxT)
          | none => none).flatten)
      exact h.imp (fun hd => of_decide_eq_true hd)
    · unfold Timeline.nodes
      rw [(List.mergeSort_perm _ _).length_eq, List.length_flatten]
      exact timeline_flatten_length tree minT maxT ids
  refine ⟨hmain, ?_⟩
  rw [(hmain tree3 [7] 0 10).2.2]
  decide

/-- Membership in the timeline is membership in the unsorted collection. -/
theorem mem_timeline_nodes (tree : Tree) (ids : List TreeNodeId) (minT maxT : Int)
    (ti : TimeInfo) :
    ti ∈ Timeline.nodes tree ids minT maxT
      ↔ ti ∈ (ids.filterMap fun node_id =>
          match tree.get_node_from_id node_id with
          | some node => some (Timeline.match_time node node_id minT maxT)
          | none => none).flatten := by
  unfold Timeline.nodes
  exact List.mem_mergeSort

/-- Witness for C5: range bounds extracted at a concrete timeline entry. -/
theorem c5_timeline_witness :
    (0 : Int) ≤ (⟨1, "t1", 7⟩ : TimeInfo).time ∧ (⟨1, "t1", 7⟩ : TimeInfo).time ≤ 10 :=
  (c5_timeline_in_range_sorted_counted.1 tree3 [7] 0 10).1 ⟨1, "t1", 7⟩
    (by rw [mem_timeline_nodes]; decide)

end TapQuery
